import Mathlib

/-!
Shallow embedding of the in-browser translation pipeline
(frontend/src/ai-translation/services/translationCache.ts,
frontend/src/services/pageTranslationService.ts,
frontend/src/hooks/useAITranslation.ts, the AITranslationGenerator
service and the native AI language switcher component), together with
theorems settling the specification claims about it.

Strings are manipulated through their character lists so that the
JavaScript string operations used by the source (`toLowerCase`, `trim`,
`replace(/\s+/g, '_')`) can be embedded as structurally recursive
functions.  Timestamps (`Date.now()`) are naturals (milliseconds).
Storage writes are modelled as succeeding, except where a claim is
about the quota-failure path (`saveCache`'s catch branch), which is
exposed as an explicit boolean parameter.
-/

set_option autoImplicit false

namespace TranslationPipeline

/-! ## JavaScript string primitives -/

/-- Whitespace as used by the source's `trim()` and `/\s+/` (the
characters that actually occur in the repository's strings). -/
def isWs (c : Char) : Bool :=
  c = ' ' || c = '\t' || c = '\n' || c = '\r'

/-- `String.prototype.toLowerCase` on the ASCII range (the only case
mapping exercised by the repository). -/
def jsToLowerChar (c : Char) : Char :=
  if 'A' ≤ c ∧ c ≤ 'Z' then Char.ofNat (c.toNat + 32) else c

def jsToLower (s : List Char) : List Char := s.map jsToLowerChar

/-- `String.prototype.trim`: drop whitespace from both ends. -/
def jsTrim (s : List Char) : List Char :=
  ((s.dropWhile isWs).reverse.dropWhile isWs).reverse

/-- `trim()` on `String` values. -/
def jsTrimStr (s : String) : String := ⟨jsTrim s.data⟩

/-- Worker for `replace(/\s+/g, '_')`: the flag records whether we are
inside a whitespace run that has already emitted its underscore. -/
def collapseWsAux : Bool → List Char → List Char
  | _, [] => []
  | inRun, c :: rest =>
    if isWs c then
      if inRun then collapseWsAux true rest
      else '_' :: collapseWsAux true rest
    else c :: collapseWsAux false rest

/-- `replace(/\s+/g, '_')`: every maximal whitespace run becomes one
underscore. -/
def collapseWs (s : List Char) : List Char := collapseWsAux false s

/-! ## Data model (ai-translation/types/translation.ts) -/

/-- `TranslationRequest { text, from, to, context? }` (`from` is a Lean
keyword, hence `fromLang`/`toLang`). -/
structure TranslationRequest where
  text : String
  fromLang : String
  toLang : String
  context : Option String
deriving DecidableEq, Repr

/-- `TranslationResponse { translatedText, sourceLanguage, targetLanguage }`. -/
structure TranslationResponse where
  translatedText : String
  sourceLanguage : String
  targetLanguage : String
deriving DecidableEq, Repr, Inhabited

/-- One value of the `TranslationCache` record:
`{ translatedText, timestamp, expiresAt }`. -/
structure CacheEntry where
  translatedText : String
  timestamp : Nat
  expiresAt : Nat
deriving DecidableEq, Repr, Inhabited

/-- The cache store: a JavaScript object keyed by strings, in key
insertion order. -/
abbrev Store := List (List Char × CacheEntry)

/-! ## TranslationCacheManager (translationCache.ts) -/

/-- `generateCacheKey`:
`` `${from}-${to}-${text.toLowerCase().trim()}-${context || ''}`.replace(/\s+/g, '_') ``.
(`context || ''` sends an absent or empty context to the empty string.) -/
def generateCacheKey (r : TranslationRequest) : List Char :=
  collapseWs (r.fromLang.data ++ '-' ::
    (r.toLang.data ++ '-' ::
      (jsTrim (jsToLower r.text.data) ++ '-' :: (r.context.getD "").data)))

/-- Reading `this.cache[key]`. -/
def objGet (cache : Store) (k : List Char) : Option CacheEntry :=
  (List.find? (fun kv => kv.1 = k) cache).map (fun kv => kv.2)

/-- `this.cache[key] = v`: overwrite in place, or append a fresh key. -/
def objSet (cache : Store) (k : List Char) (v : CacheEntry) : Store :=
  if cache.any (fun kv => kv.1 = k) then
    cache.map (fun kv => if kv.1 = k then (k, v) else kv)
  else cache ++ [(k, v)]

/-- `delete this.cache[key]`. -/
def objDelete (cache : Store) (k : List Char) : Store :=
  cache.filter (fun kv => ¬ kv.1 = k)

/-- `cleanupExpiredEntries`: drop every entry with `expiresAt < now`. -/
def cleanupExpiredEntries (cache : Store) (now : Nat) : Store :=
  cache.filter (fun kv => ¬ kv.2.expiresAt < now)

def MAX_CACHE_SIZE : Nat := 1000

/-- `cleanupOldEntries`: when the entry count exceeds `MAX_CACHE_SIZE`,
sort the entries by `timestamp` ascending and delete the oldest
`length - MAX_CACHE_SIZE + 100` of them (by key). -/
def cleanupOldEntries (cache : Store) : Store :=
  if cache.length > MAX_CACHE_SIZE then
    let sorted := cache.mergeSort (fun a b => a.2.timestamp ≤ b.2.timestamp)
    let toDelete := sorted.take (cache.length - MAX_CACHE_SIZE + 100)
    cache.filter (fun kv => ¬ (toDelete.map (fun d => d.1)).contains kv.1)
  else cache

/-- `get(request)`: compute the key; a hit past its `expiresAt` is
deleted (and the store saved) and reported as a miss; a live hit is
returned with the *request's* languages.  Returns the response (if any)
together with the store after the call. -/
def cacheGet (cache : Store) (now : Nat) (r : TranslationRequest) :
    Option TranslationResponse × Store :=
  let key := generateCacheKey r
  match objGet cache key with
  | none => (none, cache)
  | some e =>
    if e.expiresAt < now then (none, objDelete cache key)
    else (some ⟨e.translatedText, r.fromLang, r.toLang⟩, cache)

/-- `config.cacheExpiration || 24 * 60 * 60 * 1000` (JavaScript `||`:
`0` is falsy and also falls back to the default). -/
def effectiveCacheExpiration (cacheExpiration : Option Nat) : Nat :=
  match cacheExpiration with
  | some v => if v = 0 then 24 * 60 * 60 * 1000 else v
  | none => 24 * 60 * 60 * 1000

/-- `set(request, response)`: write the entry with
`expiresAt = now + ttl`, run the probabilistic expired-entry cleanup
when the 10% draw fires (`doCleanup`), then `saveCache()`; when the
storage write fails (`storageFails`), `saveCache` runs
`cleanupOldEntries` and retries. -/
def cacheManagerSet (cache : Store) (now ttl : Nat) (doCleanup storageFails : Bool)
    (r : TranslationRequest) (resp : TranslationResponse) : Store :=
  let c1 := objSet cache (generateCacheKey r) ⟨resp.translatedText, now, now + ttl⟩
  let c2 := if doCleanup then cleanupExpiredEntries c1 now else c1
  if storageFails then cleanupOldEntries c2 else c2

/-! ## AITranslator (translationCache.ts, second module) -/

/-- The four provider branches of `performTranslation`'s `switch`. -/
inductive ProviderVariant where
  | openai
  | claude
  | google
  | deepl
deriving DecidableEq, Repr

/-- The `switch (this.config.provider)` dispatch: which branch a
provider name selects, `none` for the `default:` (throwing) branch. -/
def selectProvider (provider : String) : Option ProviderVariant :=
  if provider = "openai" then some .openai
  else if provider = "claude" then some .claude
  else if provider = "google" then some .google
  else if provider = "deepl" then some .deepl
  else none

/-- The relevant part of `AITranslationConfig`. -/
structure AITranslationConfig where
  provider : String
  apiKey : String
  cacheExpiration : Option Nat
deriving DecidableEq, Repr

/-- Oracle for one provider `fetch`: `response.ok`, and the string found
at the provider-specific response path (`none` when the path is
absent). -/
structure NetworkOutcome where
  ok : Bool
  extractedText : Option String
deriving DecidableEq, Repr

/-- One provider branch after the network call: a non-2xx response
throws; the OpenAI/Claude branches `trim()` the extracted text; a
missing or empty (falsy) extracted text throws
`No translation received`; otherwise the uniform response carries the
request's languages. -/
def runVariant (v : ProviderVariant) (r : TranslationRequest)
    (net : NetworkOutcome) : Except String TranslationResponse :=
  if ¬ net.ok then .error "API error"
  else
    match net.extractedText with
    | none => .error "No translation received"
    | some t =>
      let t1 := match v with
        | .openai => jsTrimStr t
        | .claude => jsTrimStr t
        | .google => t
        | .deepl => t
      if t1 = "" then .error "No translation received"
      else .ok ⟨t1, r.fromLang, r.toLang⟩

/-- `performTranslation`: dispatch on the configured provider name; an
unknown provider throws `Unsupported AI provider` without issuing any
network call.  The second component lists the network calls issued. -/
def performTranslation (cfg : AITranslationConfig) (r : TranslationRequest)
    (net : NetworkOutcome) :
    Except String TranslationResponse × List ProviderVariant :=
  match selectProvider cfg.provider with
  | none => (.error ("Unsupported AI provider: " ++ cfg.provider), [])
  | some v => (runVariant v r net, [v])

/-- Result of one `AITranslator.translate` call: the thrown-or-returned
response, the cache store afterwards, and the network calls issued. -/
structure TranslateOutcome where
  result : Except String TranslationResponse
  cache : Store
  calls : List ProviderVariant
deriving Repr

/-- `AITranslator.translate`: cache lookup first; on a miss call
`performTranslation`, cache a success (write-through), and wrap and
rethrow a failure. -/
def translate (cfg : AITranslationConfig) (cache : Store) (now ttl : Nat)
    (doCleanup : Bool) (r : TranslationRequest) (net : NetworkOutcome) :
    TranslateOutcome :=
  match cacheGet cache now r with
  | (some resp, cache1) => ⟨.ok resp, cache1, []⟩
  | (none, cache1) =>
    match performTranslation cfg r net with
    | (.ok resp, calls) =>
      ⟨.ok resp, cacheManagerSet cache1 now ttl doCleanup false r resp, calls⟩
    | (.error e, calls) =>
      ⟨.error ("AI translation failed: " ++ e), cache1, calls⟩

/-- Per-request environment of a batch step: the network oracle for the
step's (potential) provider call, the 10% cleanup draw, and the step's
`Date.now()`. -/
structure StepEnv where
  net : NetworkOutcome
  doCleanup : Bool
  now : Nat
deriving Repr

def defaultStepEnv : StepEnv := ⟨⟨false, none⟩, false, 0⟩

/-- `AITranslator.translateBatch`: iterate the requests sequentially,
calling `translate` per item; a per-item failure is caught and replaced
by the fallback `{ translatedText: request.text }` with the request's
languages.  Returns the results (one per request, in order) and the
final cache store. -/
def translateBatch (cfg : AITranslationConfig) (ttl : Nat) :
    Store → List TranslationRequest → List StepEnv →
    List TranslationResponse × Store
  | cache, [], _ => ([], cache)
  | cache, r :: rs, envs =>
    let e := envs.headD defaultStepEnv
    let o := translate cfg cache e.now ttl e.doCleanup r e.net
    let item : TranslationResponse :=
      match o.result with
      | .ok resp => resp
      | .error _ => ⟨r.text, r.fromLang, r.toLang⟩
    let rest := translateBatch cfg ttl o.cache rs envs.tail
    (item :: rest.1, rest.2)

/-! ## DOM model for the page transformer (pageTranslationService.ts)

`getElementText`/`setElementText` read and write only the element's
*direct* text nodes (a `TreeWalker` whose filter accepts a text node iff
its parent is the element itself); descendant elements are opaque except
for their aggregate text content, which is all `textContent` and the
fallback paths ever see of them.  So a child is either a direct text
node or an element child carrying its subtree's text. -/

inductive ChildNode where
  | textNode (s : String)
  | elemChild (content : String)
deriving DecidableEq, Repr

/-- A DOM element as the page translation service sees it: its direct
children, the `data-original-text` attribute, and the
`data-translated` marker. -/
structure PElement where
  children : List ChildNode
  originalTextAttr : Option String
  translated : Bool
deriving DecidableEq, Repr

def childText : ChildNode → String
  | .textNode s => s
  | .elemChild c => c

def isTextNode : ChildNode → Bool
  | .textNode _ => true
  | .elemChild _ => false

/-- `element.textContent`: the concatenated text of the whole subtree. -/
def textContent (e : PElement) : String :=
  String.join (e.children.map childText)

/-- The concatenation of the element's direct text nodes (the
`TreeWalker` loop of `getElementText`). -/
def directText (e : PElement) : String :=
  String.join ((e.children.filter isTextNode).map childText)

/-- `getElementText`: the direct text, or if that trims to nothing the
whole `textContent`; the result is trimmed. -/
def getElementText (e : PElement) : String :=
  if jsTrimStr (directText e) = "" then jsTrimStr (textContent e)
  else jsTrimStr (directText e)

/-- Replace the first direct text node's content in a child list. -/
def setFirstTextNode : List ChildNode → String → List ChildNode
  | [], _ => []
  | .textNode _ :: rest, t => .textNode t :: rest
  | .elemChild c :: rest, t => .elemChild c :: setFirstTextNode rest t

/-- `setElementText`: write `text` into the first direct text node;
when the element has no direct text node, `element.textContent = text`
replaces all children by a single text node. -/
def setElementText (e : PElement) (text : String) : PElement :=
  if (e.children.filter isTextNode).length > 0 then
    { e with children := setFirstTextNode e.children text }
  else
    { e with children := [.textNode text] }

/-- The in-memory `PageElement` record of the service. -/
structure PageElementRecord where
  element : PElement
  originalText : String
  translatedText : Option String
  selector : String
deriving DecidableEq, Repr

/-- `applyTranslation`: when the record has a (truthy) translated text,
persist the original text on the node unless the attribute is already
(truthily) set, write the translation into the direct text, and mark
the node as translated. -/
def applyTranslation (pe : PageElementRecord) : PElement :=
  match pe.translatedText with
  | none => pe.element
  | some tt =>
    if tt = "" then pe.element
    else
      let e := pe.element
      let e1 :=
        if e.originalTextAttr = none ∨ e.originalTextAttr = some "" then
          { e with originalTextAttr := some pe.originalText }
        else e
      { setElementText e1 tt with translated := true }

/-- The per-element body of `restoreAll`: with a truthy
`data-original-text`, write it back into the direct text and delete the
`data-translated` marker (the original-text attribute is left in
place). -/
def restoreElem (e : PElement) : PElement :=
  match e.originalTextAttr with
  | none => e
  | some o =>
    if o = "" then e
    else { setElementText e o with translated := false }

/-- The service state `restoreAll` touches: the registered elements (in
map value order) and the `isTranslated` flag. -/
structure PageTranslationState where
  elements : List PElement
  isTranslated : Bool
deriving DecidableEq, Repr

/-- `restoreAll()`: restore every registered element and clear
`isTranslated`. -/
def restoreAll (s : PageTranslationState) : PageTranslationState :=
  ⟨s.elements.map restoreElem, false⟩

/-! ## Scanner (pageTranslationService.scanPage) -/

/-- A DOM element as the scanner's filters see it: the transformer view
plus the tag name and whether `element.querySelector('svg')` finds an
SVG descendant. -/
structure ScanElement where
  body : PElement
  tagName : String
  hasSvgDescendant : Bool
deriving DecidableEq, Repr

/-- The character class of `shouldSkipElement`'s regex
`/[0-9@#$%^&*()_+\-=\[\]{};':"\\|,.<>\/?]/`. -/
def specialChar (c : Char) : Bool :=
  c.isDigit || c = '@' || c = '#' || c = '$' || c = '%' || c = '^' ||
  c = '&' || c = '*' || c = '(' || c = ')' || c = '_' || c = '+' ||
  c = '-' || c = '=' || c = '[' || c = ']' || c = Char.ofNat 123 ||
  c = Char.ofNat 125 || c = ';' || c = Char.ofNat 39 || c = ':' ||
  c = Char.ofNat 34 || c = Char.ofNat 92 || c = '|' || c = ',' ||
  c = '.' || c = '<' || c = '>' || c = '/' || c = '?'

/-- `shouldSkipElement`: skip SVGs and elements containing one, inputs
and textareas, short texts dominated by special characters, and
elements already marked translated. -/
def shouldSkipElement (e : ScanElement) : Bool :=
  e.tagName = "svg" || e.hasSvgDescendant ||
  e.tagName = "input" || e.tagName = "textarea" ||
  (let t := getElementText e.body
   t.data.any specialChar && t.length < 10) ||
  e.body.translated

/-- The fixed selector list of `scanPage`. -/
def scanSelectors : List String :=
  ["button:not(:has(svg))", ".chakra-menu__menuitem", "[role=menuitem]",
   ".chakra-button", "a[role=menuitem]", ".sidebar-item-text", "nav a",
   "h1, h2, h3, h4, h5, h6", ".form-label", ".input-label",
   "[data-translate]"]

/-- A record of the scanner's element map. -/
structure ScannedRecord where
  element : ScanElement
  originalText : String
  selector : String
deriving DecidableEq, Repr

/-- A DOM snapshot, presented as what `document.querySelectorAll`
answers for each selector. -/
structure DomSnapshot where
  queryAll : String → List ScanElement

/-- `Map.prototype.set`: overwrite an existing key in place, append a
fresh one. -/
def jsMapSet (m : List (String × ScannedRecord)) (k : String)
    (v : ScannedRecord) : List (String × ScannedRecord) :=
  if m.any (fun kv => kv.1 = k) then
    m.map (fun kv => if kv.1 = k then (k, v) else kv)
  else m ++ [(k, v)]

/-- The body of `scanPage` for one selector: walk its query results with
their indices, keep elements with non-empty text that are not skipped,
and register them under
`` `${selector}-${index}-${text.substring(0, 20)}` ``. -/
def scanSelector (dom : DomSnapshot) (m0 : List (String × ScannedRecord))
    (sel : String) : List (String × ScannedRecord) :=
  ((dom.queryAll sel).enum).foldl
    (fun m ei =>
      let e := ei.2
      let text := getElementText e.body
      if text ≠ "" ∧ jsTrimStr text ≠ "" ∧ ¬ shouldSkipElement e then
        jsMapSet m (sel ++ "-" ++ toString ei.1 ++ "-" ++ ⟨text.data.take 20⟩)
          ⟨e, text, sel⟩
      else m)
    m0

/-- The scanner state: the element map (`this.elements`). -/
structure ScanState where
  elements : List (String × ScannedRecord)
deriving Repr

/-- `scanPage()`: clear the previous results, then process every
selector in order over the current document. -/
def scanPage (_s : ScanState) (dom : DomSnapshot) : ScanState :=
  ⟨scanSelectors.foldl (scanSelector dom) []⟩

/-! ## useAITranslation hook and the native switcher restore -/

/-- A document element as the hook sees it: its text, the
`data-original-text` attribute, and the `data-ai-translated` marker. -/
structure AIDocElement where
  textContent : String
  originalTextAttr : Option String
  aiTranslated : Bool
deriving DecidableEq, Repr

/-- The page state the hook manipulates: the document's elements, the
persisted `ai_language` storage key, and whether the restore button is
mounted. -/
structure AIPageState where
  elements : List AIDocElement
  aiLanguage : Option String
  restoreButton : Bool
deriving DecidableEq, Repr

/-- `restoreAITranslationState`: when the document holds no element
marked `data-ai-translated="true"`, clear the persisted `ai_language`
and return; otherwise add the restore button.  The document text is
never touched and no translation is started. -/
def restoreAITranslationState (s : AIPageState) : AIPageState :=
  if (s.elements.filter (fun e => e.aiTranslated)).length = 0 then
    { s with aiLanguage := none }
  else
    { s with restoreButton := true }

/-- The hook's mount effect: only when an `ai_language` is persisted,
run `restoreAITranslationState` (after the 1s delay). -/
def useAITranslationOnLoad (s : AIPageState) : AIPageState :=
  match s.aiLanguage with
  | none => s
  | some _ => restoreAITranslationState s

/-- Per-element body of the switcher's `restoreOriginalText`
(part_010): elements carrying `data-original-text` get their text
content written back and both attributes removed; a falsy (empty)
attribute value is left alone. -/
def restoreOriginalTextElem (e : AIDocElement) : AIDocElement :=
  match e.originalTextAttr with
  | none => e
  | some o => if o = "" then e else ⟨o, none, false⟩

/-- `restoreOriginalText` (part_010): restore every element carrying the
attribute, clear the persisted `ai_language`, and remove the restore
button. -/
def restoreOriginalText (s : AIPageState) : AIPageState :=
  ⟨s.elements.map restoreOriginalTextElem, none, false⟩

/-! ## AITranslationGenerator (part_000) -/

/-- One `{ key, text }` item of the generator's optimized batch. -/
structure BatchItem where
  key : String
  text : String
deriving DecidableEq, Repr

/-- One `{ key, translated }` result item. -/
structure TranslatedItem where
  key : String
  translated : String
deriving DecidableEq, Repr

/-- The script-range patterns of `isAlreadyTranslated`, as predicates on
code points. -/
def languagePattern (lang : String) : Option (Char → Bool) :=
  if lang = "zh" then some (fun c => 0x4e00 ≤ c.toNat ∧ c.toNat ≤ 0x9fff)
  else if lang = "ja" then
    some (fun c => (0x3040 ≤ c.toNat ∧ c.toNat ≤ 0x309f) ∨
                   (0x30a0 ≤ c.toNat ∧ c.toNat ≤ 0x30ff))
  else if lang = "ko" then some (fun c => 0xac00 ≤ c.toNat ∧ c.toNat ≤ 0xd7af)
  else if lang = "ru" then some (fun c => 0x400 ≤ c.toNat ∧ c.toNat ≤ 0x4ff)
  else if lang = "ar" then some (fun c => 0x600 ≤ c.toNat ∧ c.toNat ≤ 0x6ff)
  else if lang = "th" then some (fun c => 0xe00 ≤ c.toNat ∧ c.toNat ≤ 0xe7f)
  else none

/-- `isAlreadyTranslated(text, targetLanguage)`: the target language's
script pattern matches somewhere in the text; languages without a
pattern are never classified as already translated. -/
def isAlreadyTranslated (text : String) (targetLanguage : String) : Bool :=
  match languagePattern targetLanguage with
  | some p => text.data.any p
  | none => false

/-- The `fallbackCore` dictionary of `getFallbackTranslations`. -/
def fallbackCore : List (String × String) :=
  [("common.welcome", "Welcome"), ("common.login", "Log In"),
   ("common.logout", "Logout"), ("common.save", "Save"),
   ("common.delete", "Delete"), ("common.edit", "Edit"),
   ("nav.home", "Home"), ("nav.settings", "Settings"),
   ("sidebar.dashboard", "Dashboard"), ("sidebar.items", "Items"),
   ("sidebar.userSettings", "User Settings"),
   ("settings.title", "User Settings"),
   ("auth.loginTitle", "Sign in to your account"),
   ("auth.email", "Email"), ("auth.password", "Password")]

/-- `getFallbackTranslations`: `fallbackCore[item.key] || item.text`. -/
def getFallbackTranslations (items : List BatchItem) : List TranslatedItem :=
  items.map (fun i =>
    ⟨i.key, match (List.find? (fun kv => kv.1 = i.key) fallbackCore) with
            | some kv => if kv.2 = "" then i.text else kv.2
            | none => i.text⟩)

/-- `Map.set` over string keys (later writes win, as in the JS `Map`
built by `forEach`). -/
def strMapSet (m : List (String × String)) (k v : String) :
    List (String × String) :=
  if m.any (fun kv => kv.1 = k) then
    m.map (fun kv => if kv.1 = k then (k, v) else kv)
  else m ++ [(k, v)]

def strMapGet (m : List (String × String)) (k : String) : Option String :=
  (List.find? (fun kv => kv.1 = k) m).map (fun kv => kv.2)

/-- Build the `translationMap` from the sent texts and the response's
translations (paired by index, set in index order so that a later
duplicate text overwrites an earlier one, as in the source's
`forEach`). -/
def buildTranslationMap (texts translations : List String) :
    List (String × String) :=
  (texts.zip translations).foldl (fun m p => strMapSet m p.1 p.2) []

/-- `translateBatchOptimized` (part_000): filter out items already in
the target language; when nothing is left, return every item unchanged
without fetching.  Otherwise issue one batch fetch for the remaining
texts; on success map each item through the translation map with its
own text as fallback, on failure (timeout, transport, non-2xx) fall
back to `getFallbackTranslations` for all items.  The second component
is the list of texts sent to the provider (`none` = no network
request). -/
def translateBatchOptimized (targetLanguage : String)
    (items : List BatchItem) (net : Option (List String)) :
    List TranslatedItem × Option (List String) :=
  let toTranslate :=
    items.filter (fun i => ¬ isAlreadyTranslated i.text targetLanguage)
  if toTranslate.length = 0 then
    (items.map (fun i => ⟨i.key, i.text⟩), none)
  else
    let texts := toTranslate.map (fun i => i.text)
    match net with
    | some translations =>
      let m := buildTranslationMap texts translations
      (items.map (fun i =>
        ⟨i.key, match strMapGet m i.text with
                | some t => if t = "" then i.text else t
                | none => i.text⟩), some texts)
    | none => (getFallbackTranslations items, some texts)

/-! ## Concrete states and proof-side helpers -/

/-- Tracks whether `collapseWsAux` is inside a whitespace run after
consuming a list (proof helper for splitting the key computation). -/
def wsFlagAfter (f : Bool) : List Char → Bool
  | [] => f
  | c :: rest => wsFlagAfter (isWs c) rest

/-- A freshly loaded, untranslated document with a persisted AI
language. -/
def freshLoadState : AIPageState :=
  ⟨[⟨"Hello", none, false⟩], some "ja", false⟩

/-- An element with two direct text nodes. -/
def twoTextElement : PElement :=
  ⟨[.textNode "A", .textNode "B"], none, false⟩

/-- Its registration record with a resolved translation. -/
def twoTextRecord : PageElementRecord :=
  ⟨twoTextElement, getElementText twoTextElement, some "T", "h1"⟩

/-- A batch whose first item is already Chinese (so classified as
already translated for target `zh`) and whose second is English. -/
def zhBatchItems : List BatchItem :=
  [⟨"common.save", "保存"⟩, ⟨"items.title", "Hello"⟩]

/-- A cache state holding exactly 1000 live entries with pairwise
distinct keys and timestamps `0, …, 999`. -/
def bigCache : Store :=
  (List.range 1000).map
    (fun i => (List.replicate i 'k', ⟨"t", i, 2000000000⟩))

/-- A request whose key is fresh for `bigCache`. -/
def freshRequest : TranslationRequest := ⟨"hello", "en", "zh", none⟩

def freshResponse : TranslationResponse := ⟨"你好", "en", "zh"⟩

/-- A stored result whose languages disagree with the request's. -/
def mismatchRequest : TranslationRequest := ⟨"hi", "en", "zh", none⟩

def mismatchResponse : TranslationResponse := ⟨"X", "fr", "de"⟩

/-! ## Theorems -/

/-- C9: `scan()` is deterministic: two consecutive `scanPage` calls on a
fixed DOM snapshot (the second starting from the state the first left)
produce the same element map, hence the same count and the same original
texts in the same discovery order; the result never depends on the state
the scan started from, because `scanPage` clears `this.elements`
first. -/
theorem scanPage_deterministic (s s' : ScanState) (dom : DomSnapshot) :
    (scanPage (scanPage s dom) dom).elements = (scanPage s dom).elements ∧
    (scanPage s' dom).elements = (scanPage s dom).elements ∧
    (scanPage (scanPage s dom) dom).elements.length
      = (scanPage s dom).elements.length ∧
    (scanPage (scanPage s dom) dom).elements.map
        (fun kv => kv.2.originalText)
      = (scanPage s dom).elements.map (fun kv => kv.2.originalText) :=
  ⟨rfl, rfl, rfl, rfl⟩

/-- C7: provider dispatch.  An unknown (in particular empty) provider
name makes `performTranslation` throw the configuration error with no
network call issued; a name is unknown exactly when it is none of the
four supported backends; and the calls issued (hence the variant
invoked) are a function of the provider name alone. -/
theorem provider_selection :
    (∀ (cfg : AITranslationConfig) (r : TranslationRequest)
        (net : NetworkOutcome), selectProvider cfg.provider = none →
        performTranslation cfg r net
          = (.error ("Unsupported AI provider: " ++ cfg.provider), [])) ∧
    (∀ p : String, selectProvider p = none ↔
        ¬ (p = "openai" ∨ p = "claude" ∨ p = "google" ∨ p = "deepl")) ∧
    (∀ (cfg cfg' : AITranslationConfig) (r r' : TranslationRequest)
        (net net' : NetworkOutcome), cfg.provider = cfg'.provider →
        (performTranslation cfg r net).2
          = (performTranslation cfg' r' net').2) := by
  refine ⟨?_, ?_, ?_⟩
  · intro cfg r net h
    unfold performTranslation
    rw [h]
  · intro p
    unfold selectProvider
    split_ifs with h1 h2 h3 h4 <;> simp_all
  · intro cfg cfg' r r' net net' h
    unfold performTranslation
    rw [h]
    cases selectProvider cfg'.provider <;> rfl

/-- C7 witness: the empty (unconfigured) provider and a made-up name
error before any network call; two configs sharing the name `openai`
issue the same calls. -/
theorem provider_selection_witness :
    performTranslation ⟨"", "", none⟩ ⟨"Hi", "en", "zh", none⟩
        ⟨true, some "hola"⟩
      = (.error ("Unsupported AI provider: " ++ ""), []) ∧
    (selectProvider "grok" = none ↔
      ¬ ("grok" = "openai" ∨ "grok" = "claude" ∨ "grok" = "google" ∨
         "grok" = "deepl")) ∧
    (performTranslation ⟨"openai", "k1", none⟩ ⟨"a", "en", "zh", none⟩
        ⟨true, some "x"⟩).2
      = (performTranslation ⟨"openai", "k2", some 5⟩ ⟨"b", "en", "ja", none⟩
        ⟨false, none⟩).2 :=
  ⟨provider_selection.1 ⟨"", "", none⟩ ⟨"Hi", "en", "zh", none⟩
      ⟨true, some "hola"⟩ (by decide),
   provider_selection.2.1 "grok",
   provider_selection.2.2 ⟨"openai", "k1", none⟩ ⟨"openai", "k2", some 5⟩
      ⟨"a", "en", "zh", none⟩ ⟨"b", "en", "ja", none⟩
      ⟨true, some "x"⟩ ⟨false, none⟩ rfl⟩

/-- C3 counterexample: with `ai_language = "ja"` persisted and a freshly
loaded (untranslated) document, the load hook clears the persisted
language and leaves every element untranslated — it does not re-run the
translate workflow, and the document does not end in a translated
state. -/
theorem load_replay_counterexample :
    freshLoadState.aiLanguage = some "ja" ∧
    (useAITranslationOnLoad freshLoadState).aiLanguage = none ∧
    (useAITranslationOnLoad freshLoadState).elements
      = freshLoadState.elements ∧
    (useAITranslationOnLoad freshLoadState).elements.all
        (fun e => !e.aiTranslated) = true := by
  decide

/-- C3 amended: on load with a persisted AI language the hook never
modifies the document text; if the document holds no element marked
`data-ai-translated` it clears the persisted language, otherwise it
only mounts the restore button. -/
theorem useAITranslationOnLoad_behavior (s : AIPageState) (lang : String)
    (h : s.aiLanguage = some lang) :
    (useAITranslationOnLoad s).elements = s.elements ∧
    ((s.elements.filter (fun e => e.aiTranslated)).length = 0 →
      useAITranslationOnLoad s = { s with aiLanguage := none }) ∧
    ((s.elements.filter (fun e => e.aiTranslated)).length ≠ 0 →
      useAITranslationOnLoad s = { s with restoreButton := true }) := by
  unfold useAITranslationOnLoad restoreAITranslationState
  rw [h]
  refine ⟨?_, ?_, ?_⟩
  · by_cases hz : (List.filter (fun e => e.aiTranslated) s.elements).length = 0
    · rw [if_pos hz]
    · rw [if_neg hz]
  · intro hz
    rw [if_pos hz]
  · intro hnz
    rw [if_neg hnz]

/-- C3 witness: the amended behavior evaluated on the fresh-load
state. -/
theorem useAITranslationOnLoad_behavior_witness :
    (useAITranslationOnLoad freshLoadState).elements
      = freshLoadState.elements ∧
    useAITranslationOnLoad freshLoadState
      = { freshLoadState with aiLanguage := none } :=
  ⟨(useAITranslationOnLoad_behavior freshLoadState "ja" rfl).1,
   (useAITranslationOnLoad_behavior freshLoadState "ja" rfl).2.1 (by decide)⟩

lemma mem_strMapSet_fst {m : List (String × String)} {k v : String}
    {kv : String × String} (h : kv ∈ strMapSet m k v) :
    kv.1 = k ∨ kv.1 ∈ m.map Prod.fst := by
  unfold strMapSet at h
  split at h
  · rcases List.mem_map.1 h with ⟨kv0, hkv0, hexq⟩
    by_cases hk : kv0.1 = k
    · rw [if_pos hk] at hexq
      left
      rw [← hexq]
    · rw [if_neg hk] at hexq
      right
      rw [← hexq]
      exact List.mem_map_of_mem Prod.fst hkv0
  · rcases List.mem_append.1 h with h1 | h1
    · right
      exact List.mem_map_of_mem Prod.fst h1
    · left
      rw [List.mem_singleton.1 h1]

lemma mem_foldl_strMapSet_fst (pairs : List (String × String)) :
    ∀ (init : List (String × String)) (kv : String × String),
      kv ∈ pairs.foldl (fun m p => strMapSet m p.1 p.2) init →
      kv.1 ∈ init.map Prod.fst ∨ kv.1 ∈ pairs.map Prod.fst := by
  induction pairs with
  | nil => intro init kv h; exact Or.inl (List.mem_map_of_mem Prod.fst h)
  | cons p ps ih =>
    intro init kv h
    rcases ih (strMapSet init p.1 p.2) kv h with h1 | h1
    · rcases List.mem_map.1 h1 with ⟨kv0, hkv0, hexq⟩
      rcases mem_strMapSet_fst hkv0 with h2 | h2
      · right
        rw [← hexq, h2]
        exact List.mem_cons_self _ _
      · left
        rw [← hexq]
        exact h2
    · right
      exact List.mem_cons_of_mem _ h1

lemma mem_buildTranslationMap_fst {texts translations : List String}
    {kv : String × String} (h : kv ∈ buildTranslationMap texts translations) :
    kv.1 ∈ texts := by
  rcases mem_foldl_strMapSet_fst _ [] kv h with h1 | h1
  · simp at h1
  · rcases List.mem_map.1 h1 with ⟨p, hp, hexq⟩
    rw [← hexq]
    exact (List.mem_zip hp).1

lemma strMapGet_eq_none {m : List (String × String)} {k : String}
    (h : ∀ kv ∈ m, kv.1 ≠ k) : strMapGet m k = none := by
  unfold strMapGet
  have hf : List.find? (fun kv => kv.1 = k) m = none := by
    rw [List.find?_eq_none]
    intro kv hkv
    simpa using h kv hkv
  rw [hf]
  rfl

/-- A text classified as already in the target language never appears
among the texts of the unclassified remainder. -/
lemma classified_not_mem_toTranslate {target : String}
    {items : List BatchItem} {i : BatchItem} (hi : i ∈ items)
    (hc : isAlreadyTranslated i.text target = true) :
    i.text ∉ (items.filter
      (fun j => ¬ isAlreadyTranslated j.text target)).map
        (fun j => j.text) := by
  intro hmem
  rcases List.mem_map.1 hmem with ⟨j, hj, hexq⟩
  have hjf := List.of_mem_filter hj
  rw [← hexq] at hc
  simp [hc] at hjf

/-- C8 counterexample: in a batch for target `zh` whose first item
`"保存"` is classified as already Chinese, a group-level transport
failure substitutes the fallback dictionary, so the classified item
comes back as `"Save"`, not unchanged. -/
theorem optimized_batch_failure_counterexample :
    isAlreadyTranslated "保存" "zh" = true ∧
    (translateBatchOptimized "zh" zhBatchItems none).1
      = [⟨"common.save", "Save"⟩, ⟨"items.title", "Hello"⟩] ∧
    ¬ ((translateBatchOptimized "zh" zhBatchItems none).1
        = [⟨"common.save", "保存"⟩, ⟨"items.title", "Hello"⟩]) := by
  decide

/-- C8 amended: a classified item's text is never sent to the provider,
and a batch in which every item is classified issues no network
request and returns every text unchanged; when the group's provider
call succeeds (and also when no call is needed) a classified item is
returned unchanged; only on a group-level failure is every item — the
classified ones included — substituted from the built-in fallback
dictionary by key, with the original text when its key is absent. -/
theorem optimized_batch_skip (target : String) (items : List BatchItem)
    (net : Option (List String)) :
    ((∀ i ∈ items, isAlreadyTranslated i.text target = true) →
      translateBatchOptimized target items net
        = (items.map (fun i => ⟨i.key, i.text⟩), none)) ∧
    (∀ ts, (translateBatchOptimized target items net).2 = some ts →
      ∀ i ∈ items, isAlreadyTranslated i.text target = true →
        i.text ∉ ts) ∧
    (∀ trs k item, net = some trs → items.get? k = some item →
      isAlreadyTranslated item.text target = true →
      (translateBatchOptimized target items net).1.get? k
        = some ⟨item.key, item.text⟩) ∧
    (∀ k item, net = none → items.get? k = some item →
      (items.filter
        (fun i => ¬ isAlreadyTranslated i.text target)).length ≠ 0 →
      (translateBatchOptimized target items net).1.get? k
        = some ⟨item.key,
            match List.find? (fun kv => kv.1 = item.key) fallbackCore with
            | some kv => if kv.2 = "" then item.text else kv.2
            | none => item.text⟩) := by
  refine ⟨?_, ?_, ?_, ?_⟩
  · intro hall
    unfold translateBatchOptimized
    have hf : items.filter (fun i => ¬ isAlreadyTranslated i.text target)
        = [] := by
      rw [List.filter_eq_nil]
      intro i hi
      simp [hall i hi]
    rw [hf]
    rfl
  · intro ts hts i hi hc
    have hmem := classified_not_mem_toTranslate hi hc
    by_cases hz : (items.filter
        (fun i => ¬ isAlreadyTranslated i.text target)).length = 0
    · simp only [translateBatchOptimized, if_pos hz] at hts
      simp at hts
    · cases net with
      | none =>
        simp only [translateBatchOptimized, if_neg hz,
          Option.some.injEq] at hts
        rw [← hts]
        exact hmem
      | some trs =>
        simp only [translateBatchOptimized, if_neg hz,
          Option.some.injEq] at hts
        rw [← hts]
        exact hmem
  · intro trs k item hnet hget hc
    subst hnet
    have hmem : item ∈ items := List.get?_mem hget
    by_cases hz : (items.filter
        (fun i => ¬ isAlreadyTranslated i.text target)).length = 0
    · simp only [translateBatchOptimized, if_pos hz]
      rw [List.get?_map, hget]
      rfl
    · simp only [translateBatchOptimized, if_neg hz]
      rw [List.get?_map, hget]
      have hnone : strMapGet
          (buildTranslationMap
            ((items.filter
              (fun i => ¬ isAlreadyTranslated i.text target)).map
                (fun i => i.text)) trs) item.text = none := by
        apply strMapGet_eq_none
        intro kv hkv hexq
        have h1 := mem_buildTranslationMap_fst hkv
        rw [hexq] at h1
        exact classified_not_mem_toTranslate hmem hc h1
      simp at hnone
      simp [hnone]
  · intro k item hnet hget hnz
    subst hnet
    simp only [translateBatchOptimized, if_neg hnz]
    unfold getFallbackTranslations
    rw [List.get?_map, hget]
    rfl

/-- C8 witness: a fully-classified batch issues no request; in the
two-item batch, the classified text is never sent, a successful group
call leaves it unchanged, and the failure path maps it through the
fallback dictionary. -/
theorem optimized_batch_skip_witness :
    translateBatchOptimized "zh" [⟨"a", "你好"⟩] (some ["X"])
      = ([⟨"a", "你好"⟩], none) ∧
    ("保存" ∉ ["Hello"]) ∧
    (translateBatchOptimized "zh" zhBatchItems (some ["X"])).1.get? 0
      = some ⟨"common.save", "保存"⟩ ∧
    (translateBatchOptimized "zh" zhBatchItems none).1.get? 0
      = some ⟨"common.save",
          match List.find? (fun kv => kv.1 = "common.save") fallbackCore with
          | some kv => if kv.2 = "" then "保存" else kv.2
          | none => "保存"⟩ :=
  ⟨(optimized_batch_skip "zh" [⟨"a", "你好"⟩] (some ["X"])).1 (by decide),
   (optimized_batch_skip "zh" zhBatchItems none).2.1 ["Hello"] (by decide)
      ⟨"common.save", "保存"⟩ (by decide) (by decide),
   (optimized_batch_skip "zh" zhBatchItems (some ["X"])).2.2.1 ["X"] 0
      ⟨"common.save", "保存"⟩ rfl (by decide) (by decide),
   (optimized_batch_skip "zh" zhBatchItems none).2.2.2 0
      ⟨"common.save", "保存"⟩ rfl (by decide) (by decide)⟩

lemma filter_isTextNode_setFirstTextNode (l : List ChildNode) (t : String) :
    ((setFirstTextNode l t).filter isTextNode).length
      = (l.filter isTextNode).length := by
  induction l with
  | nil => rfl
  | cons c rest ih =>
    cases c with
    | textNode s => simp [setFirstTextNode, isTextNode]
    | elemChild s => simp [setFirstTextNode, isTextNode, ih]

lemma setFirstTextNode_idem (l : List ChildNode) (t : String) :
    setFirstTextNode (setFirstTextNode l t) t = setFirstTextNode l t := by
  induction l with
  | nil => rfl
  | cons c rest ih =>
    cases c with
    | textNode s => simp [setFirstTextNode]
    | elemChild s => simp [setFirstTextNode, ih]

lemma setElementText_pos {e : PElement} (t : String)
    (h : (e.children.filter isTextNode).length > 0) :
    setElementText e t = { e with children := setFirstTextNode e.children t } := by
  unfold setElementText
  rw [if_pos h]

lemma setElementText_neg {e : PElement} (t : String)
    (h : ¬ (e.children.filter isTextNode).length > 0) :
    setElementText e t = { e with children := [.textNode t] } := by
  unfold setElementText
  rw [if_neg h]

lemma restoreElem_idem (e : PElement) :
    restoreElem (restoreElem e) = restoreElem e := by
  obtain ⟨ch, attr, tr⟩ := e
  cases attr with
  | none => rfl
  | some o =>
    by_cases ho : o = ""
    · simp [restoreElem, ho]
    · by_cases hn : (ch.filter isTextNode).length > 0
      · have hinner : restoreElem ⟨ch, some o, tr⟩
            = ⟨setFirstTextNode ch o, some o, false⟩ := by
          simp only [restoreElem, if_neg ho]
          rw [setElementText_pos o hn]
        rw [hinner]
        simp only [restoreElem, if_neg ho]
        rw [setElementText_pos o
          (by simpa [filter_isTextNode_setFirstTextNode] using hn)]
        simp [setFirstTextNode_idem]
      · have hinner : restoreElem ⟨ch, some o, tr⟩
            = ⟨[.textNode o], some o, false⟩ := by
          simp only [restoreElem, if_neg ho]
          rw [setElementText_neg o hn]
        rw [hinner]
        simp only [restoreElem, if_neg ho]
        rw [setElementText_pos o (by simp [isTextNode])]
        simp [setFirstTextNode]

lemma restoreElem_fixed {e : PElement}
    (h : e.originalTextAttr = none ∨ e.originalTextAttr = some "") :
    restoreElem e = e := by
  rcases h with h | h
  · rw [restoreElem, h]
  · rw [restoreElem, h]
    simp

lemma restoreOriginalTextElem_idem (e : AIDocElement) :
    restoreOriginalTextElem (restoreOriginalTextElem e)
      = restoreOriginalTextElem e := by
  obtain ⟨tc, attr, tr⟩ := e
  cases attr with
  | none => rfl
  | some o =>
    by_cases ho : o = ""
    · simp [restoreOriginalTextElem, ho]
    · simp [restoreOriginalTextElem, ho]

lemma restoreOriginalTextElem_fixed {e : AIDocElement}
    (h : e.originalTextAttr = none ∨ e.originalTextAttr = some "") :
    restoreOriginalTextElem e = e := by
  rcases h with h | h
  · rw [restoreOriginalTextElem, h]
  · rw [restoreOriginalTextElem, h]
    simp

/-- C6: restoration is idempotent, for both restore implementations:
`restoreAll` twice leaves exactly the state one call leaves (text
contents and translation markers included), and with no element holding
a persisted original (nothing translated) and the flags already clear,
one call is a no-op; likewise for the switcher's
`restoreOriginalText`. -/
theorem restore_idempotent :
    (∀ s : PageTranslationState,
      restoreAll (restoreAll s) = restoreAll s) ∧
    (∀ s : PageTranslationState,
      (∀ e ∈ s.elements,
        e.originalTextAttr = none ∨ e.originalTextAttr = some "") →
      s.isTranslated = false → restoreAll s = s) ∧
    (∀ s : AIPageState,
      restoreOriginalText (restoreOriginalText s) = restoreOriginalText s) ∧
    (∀ s : AIPageState,
      (∀ e ∈ s.elements,
        e.originalTextAttr = none ∨ e.originalTextAttr = some "") →
      s.aiLanguage = none → s.restoreButton = false →
      restoreOriginalText s = s) := by
  refine ⟨?_, ?_, ?_, ?_⟩
  · intro s
    unfold restoreAll
    simp only [List.map_map]
    congr 1
    apply List.map_congr_left
    intro e _
    exact restoreElem_idem e
  · intro s h hT
    obtain ⟨els, isT⟩ := s
    unfold restoreAll
    simp only at hT
    subst hT
    congr 1
    have : els.map restoreElem = els.map id :=
      List.map_congr_left (fun e he => restoreElem_fixed (h e he))
    simpa using this
  · intro s
    unfold restoreOriginalText
    simp only [List.map_map]
    congr 1
    apply List.map_congr_left
    intro e _
    exact restoreOriginalTextElem_idem e
  · intro s h hL hB
    obtain ⟨els, lang, btn⟩ := s
    unfold restoreOriginalText
    simp only at hL hB
    subst hL
    subst hB
    congr 1
    have : els.map restoreOriginalTextElem = els.map id :=
      List.map_congr_left (fun e he => restoreOriginalTextElem_fixed (h e he))
    simpa using this

/-- C6 witness: the idempotence and no-op behavior evaluated on a
two-element translated page and on an untouched page. -/
theorem restore_idempotent_witness :
    restoreAll (restoreAll
      ⟨[⟨[.textNode "译文", .elemChild "X"], some "Hello", true⟩,
        ⟨[.elemChild "Y"], none, false⟩], true⟩)
      = restoreAll
      ⟨[⟨[.textNode "译文", .elemChild "X"], some "Hello", true⟩,
        ⟨[.elemChild "Y"], none, false⟩], true⟩ ∧
    restoreAll ⟨[⟨[.textNode "Hi"], none, false⟩], false⟩
      = ⟨[⟨[.textNode "Hi"], none, false⟩], false⟩ ∧
    restoreOriginalText (restoreOriginalText
      ⟨[⟨"译文", some "Hello", true⟩], some "zh", true⟩)
      = restoreOriginalText ⟨[⟨"译文", some "Hello", true⟩], some "zh", true⟩ ∧
    restoreOriginalText ⟨[⟨"Hi", none, false⟩], none, false⟩
      = ⟨[⟨"Hi", none, false⟩], none, false⟩ :=
  ⟨restore_idempotent.1 _,
   restore_idempotent.2.1 ⟨[⟨[.textNode "Hi"], none, false⟩], false⟩
      (by decide) rfl,
   restore_idempotent.2.2.1 _,
   restore_idempotent.2.2.2 ⟨[⟨"Hi", none, false⟩], none, false⟩
      (by decide) rfl rfl⟩

/-- Restoring an element whose content was replaced by a single text
node writes the persisted original back as that node's whole content. -/
lemma restore_single_textnode (tt g : String) (tr : Bool) (hg : g ≠ "") :
    textContent (restoreElem ⟨[.textNode tt], some g, tr⟩) = g := by
  simp only [restoreElem, if_neg hg]
  rw [setElementText_pos g (by simp [isTextNode])]
  simp [setFirstTextNode, textContent, childText, String.join]

/-- C5 counterexample: an element with two direct text nodes `"A"` and
`"B"` scans as `"AB"`, but apply-then-restore writes the whole original
into the first text node only, leaving `"ABB"` as the text content. -/
theorem applyRestore_multi_textnode_counterexample :
    getElementText twoTextElement = "AB" ∧
    textContent (restoreElem (applyTranslation twoTextRecord)) = "ABB" ∧
    ¬ (getElementText twoTextElement
        = textContent (restoreElem (applyTranslation twoTextRecord))) := by
  decide

/-- C5 amended: the apply/restore round-trip
`originalText = restore(apply(element, translatedText)).textContent`
holds for a not-yet-translated scanned element (non-blank text, no
persisted original yet) whose children are a single direct text node or
contain no direct text node at all; with more than one direct text node
(or a text node next to element children) the restore leaves the extra
content behind, as the counterexample shows. -/
theorem applyRestore_roundtrip (e : PElement) (tt sel : String)
    (hattr : e.originalTextAttr = none) (htt : tt ≠ "")
    (hne : getElementText e ≠ "")
    (hshape : (e.children.filter isTextNode).length = 0 ∨
      ((e.children.filter isTextNode).length = 1 ∧ e.children.length = 1)) :
    textContent (restoreElem
        (applyTranslation ⟨e, getElementText e, some tt, sel⟩))
      = getElementText e := by
  have happ : applyTranslation ⟨e, getElementText e, some tt, sel⟩
      = ⟨[.textNode tt], some (getElementText e), true⟩ := by
    simp only [applyTranslation, if_neg htt]
    rw [if_pos (Or.inl hattr)]
    rcases hshape with hz | ⟨h1, hlen⟩
    · rw [setElementText_neg tt (by simp [hz])]
    · rw [setElementText_pos tt (by simp [h1])]
      obtain ⟨c, hc⟩ : ∃ c, e.children = [c] := by
        cases hch : e.children with
        | nil => rw [hch] at hlen; simp at hlen
        | cons c rest =>
          rw [hch] at hlen
          simp at hlen
          exact ⟨c, by rw [hlen]⟩
      cases c with
      | textNode s => simp [hc, setFirstTextNode]
      | elemChild s =>
        rw [hc] at h1
        simp [isTextNode] at h1
  rw [happ]
  exact restore_single_textnode tt (getElementText e) true hne

/-- C5 witness: the round-trip evaluated on an element with one direct
text node and on an element with only an element child. -/
theorem applyRestore_roundtrip_witness :
    textContent (restoreElem (applyTranslation
        ⟨⟨[.textNode " Save "], none, false⟩,
          getElementText ⟨[.textNode " Save "], none, false⟩,
          some "保存", "button"⟩))
      = getElementText ⟨[.textNode " Save "], none, false⟩ ∧
    textContent (restoreElem (applyTranslation
        ⟨⟨[.elemChild "Menu"], none, false⟩,
          getElementText ⟨[.elemChild "Menu"], none, false⟩,
          some "菜单", "nav a"⟩))
      = getElementText ⟨[.elemChild "Menu"], none, false⟩ :=
  ⟨applyRestore_roundtrip ⟨[.textNode " Save "], none, false⟩ "保存" "button"
      rfl (by decide) (by decide) (Or.inr (by decide)),
   applyRestore_roundtrip ⟨[.elemChild "Menu"], none, false⟩ "菜单" "nav a"
      rfl (by decide) (by decide) (Or.inl (by decide))⟩

lemma objGet_cons (kv : List Char × CacheEntry) (rest : Store)
    (k : List Char) :
    objGet (kv :: rest) k = if kv.1 = k then some kv.2 else objGet rest k := by
  by_cases h : kv.1 = k
  · unfold objGet
    rw [List.find?_cons_of_pos _ (by simpa using h), if_pos h]
    rfl
  · unfold objGet
    rw [List.find?_cons_of_neg _ (by simpa using h), if_neg h]

lemma objGet_map_overwrite (c : Store) (k : List Char) (v : CacheEntry) :
    objGet (c.map (fun kv => if kv.1 = k then (k, v) else kv)) k
      = if c.any (fun kv => kv.1 = k) then some v else none := by
  induction c with
  | nil => simp [objGet]
  | cons kv rest ih =>
    simp only [List.map_cons, List.any_cons]
    by_cases h : kv.1 = k
    · rw [if_pos h, objGet_cons]
      simp [h]
    · rw [if_neg h, objGet_cons, if_neg h, ih]
      simp only [decide_eq_false h, Bool.false_or]

lemma objGet_append_fresh (c : Store) (k : List Char) (v : CacheEntry)
    (h : c.any (fun kv => kv.1 = k) = false) :
    objGet (c ++ [(k, v)]) k = some v := by
  induction c with
  | nil =>
    rw [List.nil_append, objGet_cons]
    simp
  | cons kv rest ih =>
    rw [List.any_cons, Bool.or_eq_false_iff] at h
    rw [List.cons_append, objGet_cons, if_neg (by simpa using h.1)]
    exact ih h.2

lemma objGet_objSet (c : Store) (k : List Char) (v : CacheEntry) :
    objGet (objSet c k v) k = some v := by
  unfold objSet
  by_cases h : c.any (fun kv => kv.1 = k) = true
  · rw [if_pos h, objGet_map_overwrite, if_pos h]
  · rw [if_neg h]
    exact objGet_append_fresh c k v (by
      cases hb : c.any (fun kv => kv.1 = k) with
      | false => rfl
      | true => exact absurd hb h)

lemma objSet_key_unique {c : Store} {k : List Char} {v : CacheEntry} :
    ∀ kv ∈ objSet c k v, kv.1 = k → kv.2 = v := by
  intro kv hkv hk
  unfold objSet at hkv
  split at hkv
  · rcases List.mem_map.1 hkv with ⟨kv0, _, hexq⟩
    by_cases h0 : kv0.1 = k
    · rw [if_pos h0] at hexq
      rw [← hexq]
    · rw [if_neg h0] at hexq
      rw [← hexq] at hk
      exact absurd hk h0
  · rcases List.mem_append.1 hkv with h1 | h1
    · rename_i hany
      simp only [List.any_eq_true, not_exists] at hany
      exact absurd hk (by simpa using fun he => hany kv ⟨h1, by simpa using he⟩)
    · rw [List.mem_singleton.1 h1]

lemma objGet_filter {s : Store} {k : List Char} {v : CacheEntry}
    (p : List Char × CacheEntry → Bool)
    (huniq : ∀ kv ∈ s, kv.1 = k → kv.2 = v)
    (hget : objGet s k = some v) (hp : p (k, v) = true) :
    objGet (s.filter p) k = some v := by
  induction s with
  | nil => simp [objGet] at hget
  | cons kv rest ih =>
    by_cases h : kv.1 = k
    · have hv : kv.2 = v := huniq kv (List.mem_cons_self _ _) h
      have hkv : kv = (k, v) := by
        obtain ⟨a, b⟩ := kv
        simp only at h hv
        rw [h, hv]
      rw [hkv, List.filter_cons_of_pos (by simpa using hp), objGet_cons]
      simp
    · rw [objGet_cons, if_neg h] at hget
      have ih2 := ih
        (fun kv2 hkv2 hk2 => huniq kv2 (List.mem_cons_of_mem _ hkv2) hk2) hget
      by_cases hpkv : p kv
      · rw [List.filter_cons_of_pos hpkv, objGet_cons, if_neg h]
        exact ih2
      · rw [List.filter_cons_of_neg hpkv]
        exact ih2

lemma objGet_objDelete (s : Store) (k : List Char) :
    objGet (objDelete s k) k = none := by
  unfold objDelete objGet
  rw [List.find?_eq_none.2]
  · rfl
  · intro kv hkv
    have := List.of_mem_filter hkv
    simpa using this

/-- After `set` (with the storage write succeeding) the entry just
written is found under the request's key, whether or not the 10%
expired-entry cleanup fires. -/
lemma objGet_cacheManagerSet_self (cache : Store) (now ttl : Nat)
    (dc : Bool) (r : TranslationRequest) (resp : TranslationResponse) :
    objGet (cacheManagerSet cache now ttl dc false r resp)
        (generateCacheKey r)
      = some ⟨resp.translatedText, now, now + ttl⟩ := by
  unfold cacheManagerSet
  simp only [Bool.false_eq_true, if_false]
  cases dc with
  | false =>
    simp only [Bool.false_eq_true, if_false]
    exact objGet_objSet cache (generateCacheKey r) _
  | true =>
    simp only [if_true]
    apply objGet_filter _ objSet_key_unique
      (objGet_objSet cache (generateCacheKey r) _)
    simp

/-- C4 counterexample: storing a result whose languages disagree with
the request's, `get` returns the request's languages, not the stored
result's — the returned response is not equal to the one stored. -/
theorem cacheGet_language_counterexample :
    (cacheGet (cacheManagerSet [] 0 1000 false false
        mismatchRequest mismatchResponse) 0 mismatchRequest).1
      = some ⟨"X", "en", "zh"⟩ ∧
    mismatchResponse = ⟨"X", "fr", "de"⟩ ∧
    ¬ ((cacheGet (cacheManagerSet [] 0 1000 false false
        mismatchRequest mismatchResponse) 0 mismatchRequest).1
      = some mismatchResponse) := by
  decide

/-- C4 amended: after `set(request, result)`, while the stored
`expiresAt` has not passed, `get(request)` returns the stored
`translatedText` with the *request's* source and target languages (so
it equals the stored result exactly when the result's languages match
the request's); once `expiresAt` has passed, `get` returns absent and
the entry is removed from the store. -/
theorem cache_roundtrip (cache : Store) (r : TranslationRequest)
    (resp : TranslationResponse) (now ttl now2 : Nat) (dc : Bool) :
    (¬ now + ttl < now2 →
      (cacheGet (cacheManagerSet cache now ttl dc false r resp) now2 r).1
        = some ⟨resp.translatedText, r.fromLang, r.toLang⟩) ∧
    (now + ttl < now2 →
      (cacheGet (cacheManagerSet cache now ttl dc false r resp) now2 r).1
          = none ∧
      objGet (cacheGet (cacheManagerSet cache now ttl dc false r resp)
          now2 r).2 (generateCacheKey r) = none) := by
  have hself := objGet_cacheManagerSet_self cache now ttl dc r resp
  constructor
  · intro hlive
    simp only [cacheGet]
    rw [hself]
    simp [hlive]
  · intro hexp
    simp only [cacheGet]
    rw [hself]
    simp [hexp, objGet_objDelete]

/-- C4 witness: the amended round-trip evaluated with a concrete
request at a time before and a time after expiry. -/
theorem cache_roundtrip_witness :
    (cacheGet (cacheManagerSet [] 100 50 false false
        ⟨"Save", "en", "zh", none⟩ ⟨"保存", "en", "zh"⟩) 150
        ⟨"Save", "en", "zh", none⟩).1
      = some ⟨"保存", "en", "zh"⟩ ∧
    (cacheGet (cacheManagerSet [] 100 50 false false
        ⟨"Save", "en", "zh", none⟩ ⟨"保存", "en", "zh"⟩) 151
        ⟨"Save", "en", "zh", none⟩).1
      = none :=
  ⟨(cache_roundtrip [] ⟨"Save", "en", "zh", none⟩ ⟨"保存", "en", "zh"⟩
      100 50 150 false).1 (by decide),
   ((cache_roundtrip [] ⟨"Save", "en", "zh", none⟩ ⟨"保存", "en", "zh"⟩
      100 50 151 false).2 (by decide)).1⟩

lemma mem_objSet {c : Store} {k : List Char} {v : CacheEntry}
    {kv : List Char × CacheEntry} (h : kv ∈ objSet c k v) :
    kv ∈ c ∨ kv = (k, v) := by
  unfold objSet at h
  split at h
  · rcases List.mem_map.1 h with ⟨kv0, hkv0, hexq⟩
    by_cases h0 : kv0.1 = k
    · right
      rw [← hexq, if_pos h0]
    · left
      rw [← hexq, if_neg h0]
      exact hkv0
  · rcases List.mem_append.1 h with h1 | h1
    · left
      exact h1
    · right
      exact List.mem_singleton.1 h1

lemma mem_cacheGet_snd {cache : Store} {now : Nat} {r : TranslationRequest}
    {kv : List Char × CacheEntry} (h : kv ∈ (cacheGet cache now r).2) :
    kv ∈ cache := by
  simp only [cacheGet] at h
  rcases hg : objGet cache (generateCacheKey r) with _ | e
  · simp only [hg] at h
    exact h
  · simp only [hg] at h
    split at h
    · exact List.mem_of_mem_filter h
    · exact h

lemma cacheGet_fst_some {cache : Store} {now : Nat} {r : TranslationRequest}
    {resp : TranslationResponse} (h : (cacheGet cache now r).1 = some resp) :
    resp.sourceLanguage = r.fromLang ∧ resp.targetLanguage = r.toLang ∧
    ∃ kv, kv ∈ cache ∧ kv.2.translatedText = resp.translatedText := by
  simp only [cacheGet] at h
  rcases hg : objGet cache (generateCacheKey r) with _ | e
  · simp [hg] at h
  · simp only [hg] at h
    split at h
    · simp at h
    · simp only [Option.some.injEq] at h
      subst h
      refine ⟨rfl, rfl, ?_⟩
      unfold objGet at hg
      rcases hf : List.find? (fun kv => kv.1 = generateCacheKey r) cache
        with _ | kv0
      · rw [hf] at hg
        simp at hg
      · rw [hf] at hg
        simp at hg
        exact ⟨kv0, List.mem_of_find?_eq_some hf, by rw [hg]⟩

lemma ok_of_if_ne {t1 : String} {r : TranslationRequest}
    {resp : TranslationResponse}
    (h : (if t1 = "" then (Except.error "No translation received" :
            Except String TranslationResponse)
          else Except.ok ⟨t1, r.fromLang, r.toLang⟩) = Except.ok resp) :
    resp.translatedText ≠ "" ∧ resp.sourceLanguage = r.fromLang ∧
    resp.targetLanguage = r.toLang := by
  split at h
  · simp at h
  · rename_i hne
    simp only [Except.ok.injEq] at h
    subst h
    exact ⟨hne, rfl, rfl⟩

lemma runVariant_ok {v : ProviderVariant} {r : TranslationRequest}
    {net : NetworkOutcome} {resp : TranslationResponse}
    (h : runVariant v r net = .ok resp) :
    resp.translatedText ≠ "" ∧ resp.sourceLanguage = r.fromLang ∧
    resp.targetLanguage = r.toLang := by
  unfold runVariant at h
  split at h
  · simp at h
  · rcases hx : net.extractedText with _ | t
    · simp [hx] at h
    · simp only [hx] at h
      cases v <;> exact ok_of_if_ne h

lemma performTranslation_ok {cfg : AITranslationConfig}
    {r : TranslationRequest} {net : NetworkOutcome}
    {resp : TranslationResponse} {calls : List ProviderVariant}
    (h : performTranslation cfg r net = (.ok resp, calls)) :
    resp.translatedText ≠ "" ∧ resp.sourceLanguage = r.fromLang ∧
    resp.targetLanguage = r.toLang := by
  unfold performTranslation at h
  rcases hs : selectProvider cfg.provider with _ | v
  · rw [hs] at h
    simp at h
  · rw [hs] at h
    simp only [Prod.mk.injEq] at h
    exact runVariant_ok h.1

lemma translate_ok {cfg : AITranslationConfig} {cache : Store}
    {now ttl : Nat} {dc : Bool} {r : TranslationRequest}
    {net : NetworkOutcome} {resp : TranslationResponse}
    (h : (translate cfg cache now ttl dc r net).result = .ok resp) :
    (resp.sourceLanguage = r.fromLang ∧ resp.targetLanguage = r.toLang) ∧
    ((∀ kv ∈ cache, kv.2.translatedText ≠ "") →
      resp.translatedText ≠ "") := by
  unfold translate at h
  rcases hcg : cacheGet cache now r with ⟨o, c1⟩
  rw [hcg] at h
  cases o with
  | some resp1 =>
    simp only [Except.ok.injEq] at h
    subst h
    have h1 := cacheGet_fst_some (by rw [hcg] : (cacheGet cache now r).1 = some resp1)
    refine ⟨⟨h1.1, h1.2.1⟩, ?_⟩
    intro hinv
    rcases h1.2.2 with ⟨kv, hkv, htext⟩
    rw [← htext]
    exact hinv kv hkv
  | none =>
    rcases hpt : performTranslation cfg r net with ⟨res, calls⟩
    rw [hpt] at h
    cases res with
    | ok resp2 =>
      simp only [Except.ok.injEq] at h
      subst h
      have h2 := performTranslation_ok hpt
      exact ⟨⟨h2.2.1, h2.2.2⟩, fun _ => h2.1⟩
    | error msg =>
      simp at h

lemma translate_cache_inv {cfg : AITranslationConfig} {cache : Store}
    {now ttl : Nat} {dc : Bool} {r : TranslationRequest}
    {net : NetworkOutcome}
    (hinv : ∀ kv ∈ cache, kv.2.translatedText ≠ "") :
    ∀ kv ∈ (translate cfg cache now ttl dc r net).cache,
      kv.2.translatedText ≠ "" := by
  intro kv hkv
  unfold translate at hkv
  rcases hcg : cacheGet cache now r with ⟨o, c1⟩
  rw [hcg] at hkv
  have hc1 : ∀ kv2 ∈ c1, kv2 ∈ cache := by
    intro kv2 h2
    exact mem_cacheGet_snd (by rw [hcg]; exact h2)
  cases o with
  | some resp1 => exact hinv kv (hc1 kv hkv)
  | none =>
    rcases hpt : performTranslation cfg r net with ⟨res, calls⟩
    rw [hpt] at hkv
    cases res with
    | ok resp2 =>
      simp only [cacheManagerSet, Bool.false_eq_true, if_false] at hkv
      have hkv2 : kv ∈ objSet c1 (generateCacheKey r)
          ⟨resp2.translatedText, now, now + ttl⟩ := by
        rcases hdc : dc
        · simpa [hdc] using hkv
        · simp only [hdc, if_true] at hkv
          exact List.mem_of_mem_filter hkv
      rcases mem_objSet hkv2 with hold | hnew
      · exact hinv kv (hc1 kv hold)
      · rw [hnew]
        exact (performTranslation_ok hpt).1
    | error msg => exact hinv kv (hc1 kv hkv)

/-- C1: `translateBatch` returns exactly one result per request in
order (it cannot abort early); every result carries the matching
request's source and target languages; an item whose `translate` call
throws yields the fallback carrying the item's original text (stated at
the head, for every starting cache and environment, hence at every
position); and with a well-formed cache (no empty cached translations)
and non-empty request texts, every result's `translatedText` is
non-empty. -/
theorem translateBatch_fallback_invariant :
    (∀ (cfg : AITranslationConfig) (ttl : Nat) (cache : Store)
        (rs : List TranslationRequest) (envs : List StepEnv),
        (translateBatch cfg ttl cache rs envs).1.length = rs.length) ∧
    (∀ (cfg : AITranslationConfig) (ttl : Nat) (cache : Store)
        (rs : List TranslationRequest) (envs : List StepEnv) (k : Nat),
        ((translateBatch cfg ttl cache rs envs).1.get? k).map
            (fun x => (x.sourceLanguage, x.targetLanguage))
          = (rs.get? k).map (fun r => (r.fromLang, r.toLang))) ∧
    (∀ (cfg : AITranslationConfig) (ttl : Nat) (cache : Store)
        (r : TranslationRequest) (rs : List TranslationRequest)
        (e : StepEnv) (envs : List StepEnv),
        (∃ msg, (translate cfg cache e.now ttl e.doCleanup r e.net).result
            = .error msg) →
        (translateBatch cfg ttl cache (r :: rs) (e :: envs)).1.head?
          = some ⟨r.text, r.fromLang, r.toLang⟩) ∧
    (∀ (cfg : AITranslationConfig) (ttl : Nat) (cache : Store)
        (rs : List TranslationRequest) (envs : List StepEnv),
        (∀ kv ∈ cache, kv.2.translatedText ≠ "") →
        (∀ r ∈ rs, r.text ≠ "") →
        ∀ resp ∈ (translateBatch cfg ttl cache rs envs).1,
          resp.translatedText ≠ "") := by
  refine ⟨?_, ?_, ?_, ?_⟩
  · intro cfg ttl cache rs envs
    induction rs generalizing cache envs with
    | nil => rfl
    | cons r rs ih =>
      simp only [translateBatch, List.length_cons]
      rw [ih]
  · intro cfg ttl cache rs envs k
    induction rs generalizing cache envs k with
    | nil => simp [translateBatch]
    | cons r rs ih =>
      cases k with
      | zero =>
        simp only [translateBatch, List.get?]
        rcases hE : translate cfg cache (envs.headD defaultStepEnv).now ttl
            (envs.headD defaultStepEnv).doCleanup r
            (envs.headD defaultStepEnv).net with ⟨res, cache2, calls⟩
        cases res with
        | ok resp2 =>
          have hl := (translate_ok (by rw [hE] :
            (translate cfg cache (envs.headD defaultStepEnv).now ttl
              (envs.headD defaultStepEnv).doCleanup r
              (envs.headD defaultStepEnv).net).result = .ok resp2)).1
          simp [hl.1, hl.2]
        | error msg => simp
      | succ k =>
        simp only [translateBatch, List.get?]
        exact ih _ _ _
  · intro cfg ttl cache r rs e envs hmsg
    rcases hmsg with ⟨msg, hmsg⟩
    simp only [translateBatch, List.headD]
    rw [hmsg]
    rfl
  · intro cfg ttl cache rs envs
    induction rs generalizing cache envs with
    | nil =>
      intro hinv hne resp hresp
      simp [translateBatch] at hresp
    | cons r rs ih =>
      intro hinv hne resp hresp
      simp only [translateBatch] at hresp
      rcases List.mem_cons.1 hresp with rfl | hmem
      · rcases hE : translate cfg cache (envs.headD defaultStepEnv).now ttl
            (envs.headD defaultStepEnv).doCleanup r
            (envs.headD defaultStepEnv).net with ⟨res, cache2, calls⟩
        cases res with
        | ok resp2 => exact (translate_ok (by rw [hE])).2 hinv
        | error msg => exact hne r (List.mem_cons_self _ _)
      · exact ih _ _ (translate_cache_inv hinv)
          (fun r2 h2 => hne r2 (List.mem_cons_of_mem _ h2)) resp hmem


/-- C1 witness: a two-request batch where the first provider call fails
and the second succeeds — two results, the second carrying the
request's languages, the first being the original-text fallback, and a
result text that is non-empty. -/
theorem translateBatch_fallback_invariant_witness :
    (translateBatch ⟨"openai", "key", none⟩ 1000 []
        [⟨"Hello", "en", "zh", none⟩, ⟨"World", "en", "zh", none⟩]
        [⟨⟨false, none⟩, false, 5⟩, ⟨⟨true, some "世界"⟩, false, 6⟩]).1.length
      = 2 ∧
    ((translateBatch ⟨"openai", "key", none⟩ 1000 []
        [⟨"Hello", "en", "zh", none⟩, ⟨"World", "en", "zh", none⟩]
        [⟨⟨false, none⟩, false, 5⟩, ⟨⟨true, some "世界"⟩, false, 6⟩]).1.get? 1).map
          (fun x => (x.sourceLanguage, x.targetLanguage))
      = (([⟨"Hello", "en", "zh", none⟩, ⟨"World", "en", "zh", none⟩] :
          List TranslationRequest).get? 1).map
          (fun r => (r.fromLang, r.toLang)) ∧
    (translateBatch ⟨"openai", "key", none⟩ 1000 []
        [⟨"Hello", "en", "zh", none⟩, ⟨"World", "en", "zh", none⟩]
        [⟨⟨false, none⟩, false, 5⟩, ⟨⟨true, some "世界"⟩, false, 6⟩]).1.head?
      = some ⟨"Hello", "en", "zh"⟩ ∧
    (⟨"Hello", "en", "zh"⟩ : TranslationResponse).translatedText ≠ "" :=
  ⟨translateBatch_fallback_invariant.1 ⟨"openai", "key", none⟩ 1000 []
      [⟨"Hello", "en", "zh", none⟩, ⟨"World", "en", "zh", none⟩]
      [⟨⟨false, none⟩, false, 5⟩, ⟨⟨true, some "世界"⟩, false, 6⟩],
   translateBatch_fallback_invariant.2.1 ⟨"openai", "key", none⟩ 1000 []
      [⟨"Hello", "en", "zh", none⟩, ⟨"World", "en", "zh", none⟩]
      [⟨⟨false, none⟩, false, 5⟩, ⟨⟨true, some "世界"⟩, false, 6⟩] 1,
   translateBatch_fallback_invariant.2.2.1 ⟨"openai", "key", none⟩ 1000 []
      ⟨"Hello", "en", "zh", none⟩ [⟨"World", "en", "zh", none⟩]
      ⟨⟨false, none⟩, false, 5⟩ [⟨⟨true, some "世界"⟩, false, 6⟩]
      ⟨"AI translation failed: API error", rfl⟩,
   translateBatch_fallback_invariant.2.2.2 ⟨"openai", "key", none⟩ 1000 []
      [⟨"Hello", "en", "zh", none⟩, ⟨"World", "en", "zh", none⟩]
      [⟨⟨false, none⟩, false, 5⟩, ⟨⟨true, some "世界"⟩, false, 6⟩]
      (by intro kv hkv; cases hkv) (by decide)
      ⟨"Hello", "en", "zh"⟩ (by decide)⟩

lemma cacheGet_of_objGet_live {cache : Store} {now : Nat}
    {r : TranslationRequest} {e : CacheEntry}
    (hg : objGet cache (generateCacheKey r) = some e)
    (hlive : ¬ e.expiresAt < now) :
    (cacheGet cache now r).1
      = some ⟨e.translatedText, r.fromLang, r.toLang⟩ := by
  simp only [cacheGet, hg]
  rw [if_neg hlive]

lemma collapseWsAux_append (a : List Char) :
    ∀ (f : Bool) (b : List Char),
      collapseWsAux f (a ++ b)
        = collapseWsAux f a ++ collapseWsAux (wsFlagAfter f a) b := by
  induction a with
  | nil => intro f b; rfl
  | cons c rest ih =>
    intro f b
    cases hc : isWs c with
    | true =>
      simp only [List.cons_append, collapseWsAux, hc, if_true, wsFlagAfter,
        List.append_eq]
      rw [ih true b]
      cases f with
      | false => simp
      | true => simp
    | false =>
      simp only [List.cons_append, collapseWsAux, hc, Bool.false_eq_true,
        if_false, wsFlagAfter, List.append_eq]
      rw [ih false b]

lemma wsFlagAfter_append_last (f : Bool) (l : List Char) (c : Char) :
    wsFlagAfter f (l ++ [c]) = isWs c := by
  induction l generalizing f with
  | nil => rfl
  | cons d rest ih => exact ih (isWs d)

lemma wsFlagAfter_jsTrim (s : List Char) :
    wsFlagAfter false (jsTrim s) = false := by
  unfold jsTrim
  rcases hd : (s.dropWhile isWs).reverse.dropWhile isWs with _ | ⟨c, rest⟩
  · rfl
  · have hc : isWs c = false := by
      have hh := List.head?_dropWhile_not isWs (s.dropWhile isWs).reverse
      rw [hd] at hh
      simpa using hh
    rw [List.reverse_cons, wsFlagAfter_append_last, hc]

/-- The cache key factors through the collapsed, trimmed, lowered text:
the surrounding `from`/`to`/`context` segments are separated from it by
`-` characters, across which no whitespace run can extend. -/
lemma generateCacheKey_split (r : TranslationRequest) :
    generateCacheKey r
      = collapseWsAux false
          ((r.fromLang.data ++ ['-']) ++ (r.toLang.data ++ ['-']))
        ++ (collapseWs (jsTrim (jsToLower r.text.data))
        ++ collapseWsAux false ('-' :: (r.context.getD "").data)) := by
  unfold generateCacheKey collapseWs
  have harg : r.fromLang.data ++ '-' :: (r.toLang.data ++ '-' ::
        (jsTrim (jsToLower r.text.data) ++ '-' :: (r.context.getD "").data))
      = ((r.fromLang.data ++ ['-']) ++ (r.toLang.data ++ ['-']))
        ++ (jsTrim (jsToLower r.text.data)
            ++ '-' :: (r.context.getD "").data) := by
    simp
  rw [harg, collapseWsAux_append]
  have hfP : wsFlagAfter false
      ((r.fromLang.data ++ ['-']) ++ (r.toLang.data ++ ['-'])) = false := by
    rw [← List.append_assoc, wsFlagAfter_append_last]
    rfl
  rw [hfP, collapseWsAux_append (jsTrim (jsToLower r.text.data)) false
    ('-' :: (r.context.getD "").data), wsFlagAfter_jsTrim]

/-- C10: the key normalization is lossy exactly as claimed: any two
texts that agree after lowering, trimming and collapsing whitespace
runs to underscores (in particular texts differing only in letter
case, in leading/trailing whitespace, or in internal whitespace runs
versus underscores) produce the same cache key with any fixed
languages and context, so a `set` under one text makes a `get` under
the other a hit returning the stored translation. -/
theorem cacheKey_lossy_normalization (fromL toL : String)
    (ctx : Option String) (t1 t2 : String)
    (h : collapseWs (jsTrim (jsToLower t1.data))
        = collapseWs (jsTrim (jsToLower t2.data))) :
    generateCacheKey ⟨t1, fromL, toL, ctx⟩
      = generateCacheKey ⟨t2, fromL, toL, ctx⟩ ∧
    ∀ (cache : Store) (now ttl : Nat) (dc : Bool)
      (resp : TranslationResponse),
      (cacheGet (cacheManagerSet cache now ttl dc false
          ⟨t1, fromL, toL, ctx⟩ resp) now ⟨t2, fromL, toL, ctx⟩).1
        = some ⟨resp.translatedText, fromL, toL⟩ := by
  have hkey : generateCacheKey ⟨t1, fromL, toL, ctx⟩
      = generateCacheKey ⟨t2, fromL, toL, ctx⟩ := by
    rw [generateCacheKey_split, generateCacheKey_split]
    simp only
    rw [h]
  refine ⟨hkey, ?_⟩
  intro cache now ttl dc resp
  have hself := objGet_cacheManagerSet_self cache now ttl dc
    ⟨t1, fromL, toL, ctx⟩ resp
  rw [hkey] at hself
  exact cacheGet_of_objGet_live hself (by simp only []; omega)

/-- C10 witness: `"Save"`/`"save"` and `"a b"`/`"a_b"` share keys, and
a `set` under `" Save "` is hit by a `get` under `"save"`. -/
theorem cacheKey_lossy_normalization_witness :
    generateCacheKey ⟨"Save", "en", "zh", none⟩
      = generateCacheKey ⟨"save", "en", "zh", none⟩ ∧
    generateCacheKey ⟨"a b", "en", "zh", none⟩
      = generateCacheKey ⟨"a_b", "en", "zh", none⟩ ∧
    (cacheGet (cacheManagerSet [] 7 100 false false
        ⟨" Save ", "en", "zh", some "menu"⟩ ⟨"保存", "en", "zh"⟩) 7
        ⟨"save", "en", "zh", some "menu"⟩).1
      = some ⟨"保存", "en", "zh"⟩ :=
  ⟨(cacheKey_lossy_normalization "en" "zh" none "Save" "save" (by decide)).1,
   (cacheKey_lossy_normalization "en" "zh" none "a b" "a_b" (by decide)).1,
   (cacheKey_lossy_normalization "en" "zh" (some "menu") " Save " "save"
      (by decide)).2 [] 7 100 false ⟨"保存", "en", "zh"⟩⟩

lemma objSet_length_fresh {c : Store} {k : List Char} {v : CacheEntry}
    (h : ¬ c.any (fun kv => kv.1 = k) = true) :
    (objSet c k v).length = c.length + 1 := by
  unfold objSet
  rw [if_neg h]
  simp

/-- Removing one present key from a store with pairwise-distinct keys
removes exactly one entry. -/
lemma length_filter_key_erase (l : Store) (d : List Char)
    (hl : (l.map Prod.fst).Nodup) (hd : d ∈ l.map Prod.fst) :
    (l.filter (fun kv => ¬ kv.1 = d)).length = l.length - 1 := by
  induction l with
  | nil => simp at hd
  | cons kv rest ih =>
    rw [List.map_cons, List.nodup_cons] at hl
    by_cases h : kv.1 = d
    · rw [List.filter_cons_of_neg (by simpa using h)]
      have hall : rest.filter (fun kv => ¬ kv.1 = d) = rest := by
        rw [List.filter_eq_self]
        intro a ha
        have : a.1 ≠ d := by
          intro had
          exact hl.1 (by
            rw [h]
            exact had ▸ List.mem_map_of_mem Prod.fst ha)
        simpa using this
      rw [hall]
      simp
    · rw [List.filter_cons_of_pos (by simpa using h)]
      have hd2 : d ∈ rest.map Prod.fst := by
        rw [List.map_cons, List.mem_cons] at hd
        rcases hd with hd | hd
        · exact absurd hd.symm h
        · exact hd
      have hne : rest ≠ [] := by
        intro hnil
        rw [hnil] at hd2
        simp at hd2
      have hpos : 0 < rest.length := List.length_pos.2 hne
      simp only [List.length_cons, ih hl.2 hd2]
      omega

/-- Deleting a duplicate-free batch of present keys from a store with
pairwise-distinct keys removes exactly one entry per key. -/
lemma length_filter_not_contains (D : List (List Char)) :
    ∀ l : Store, D.Nodup → (∀ d ∈ D, d ∈ l.map Prod.fst) →
      (l.map Prod.fst).Nodup →
      (l.filter (fun kv => ¬ D.contains kv.1)).length
        = l.length - D.length := by
  induction D with
  | nil =>
    intro l _ _ _
    have hall : l.filter (fun kv => ¬ ([] : List (List Char)).contains kv.1)
        = l := by
      rw [List.filter_eq_self]
      intro a _
      simp
    rw [hall]
    simp
  | cons d D2 ih =>
    intro l hD hsub hl
    rw [List.nodup_cons] at hD
    have hcomb : l.filter (fun kv => ¬ (d :: D2).contains kv.1)
        = (l.filter (fun kv => ¬ kv.1 = d)).filter
            (fun kv => ¬ D2.contains kv.1) := by
      rw [List.filter_filter]
      apply List.filter_congr
      intro a _
      by_cases h1 : a.1 = d
      · simp [List.contains_cons, h1]
      · simp [List.contains_cons, h1]
    have hdl : d ∈ l.map Prod.fst := hsub d (List.mem_cons_self _ _)
    have hl2 : ((l.filter (fun kv => ¬ kv.1 = d)).map Prod.fst).Nodup :=
      hl.sublist ((List.filter_sublist l).map Prod.fst)
    have hsub2 : ∀ e ∈ D2,
        e ∈ (l.filter (fun kv => ¬ kv.1 = d)).map Prod.fst := by
      intro e heD
      rcases List.mem_map.1 (hsub e (List.mem_cons_of_mem _ heD))
        with ⟨kv, hkvl, hexq⟩
      refine List.mem_map.2 ⟨kv, ?_, hexq⟩
      rw [List.mem_filter]
      refine ⟨hkvl, ?_⟩
      have hne : kv.1 ≠ d := by
        rw [hexq]
        intro hed
        exact hD.1 (hed ▸ heD)
      simpa using hne
    rw [hcomb, ih _ hD.2 hsub2 hl2, length_filter_key_erase l d hl hdl,
      List.length_cons]
    omega

/-- `set` with the storage write succeeding (and the cleanup draw not
firing) is exactly the key-write, stated at a variable cache so that no
concrete store is ever evaluated. -/
lemma cacheManagerSet_normal (cache : Store) (now ttl : Nat)
    (r : TranslationRequest) (resp : TranslationResponse) :
    cacheManagerSet cache now ttl false false r resp
      = objSet cache (generateCacheKey r)
          ⟨resp.translatedText, now, now + ttl⟩ := rfl

/-- The fresh request's key, evaluated once (a 12-character list). -/
lemma freshRequest_key : generateCacheKey freshRequest
    = ['e', 'n', '-', 'z', 'h', '-', 'h', 'e', 'l', 'l', 'o', '-'] := by
  decide

/-- The fresh request's key collides with no key of `bigCache`. -/
lemma bigCache_fresh : ¬ bigCache.any
    (fun kv => kv.1 = generateCacheKey freshRequest) = true := by
  rw [List.any_eq_true]
  rintro ⟨kv, hkv, hp⟩
  simp only [bigCache, List.mem_map, List.mem_range] at hkv
  rcases hkv with ⟨i, hi, rfl⟩
  rw [freshRequest_key] at hp
  have hp2 : List.replicate i 'k'
      = ['e', 'n', '-', 'z', 'h', '-', 'h', 'e', 'l', 'l', 'o', '-'] := by
    simpa using hp
  cases i with
  | zero => simp at hp2
  | succ n =>
    rw [List.replicate_succ] at hp2
    injection hp2 with h1 h2
    exact absurd h1 (by decide)

/-- C2 counterexample: a cache holding exactly 1000 live entries plus
one `set()` with a fresh key (and the storage write succeeding) leaves
1001 entries — `set` alone never evicts, so the capacity bound is
exceeded. -/
theorem cacheSet_exceeds_capacity_counterexample :
    bigCache.length = MAX_CACHE_SIZE ∧
    (cacheManagerSet bigCache 1000000 86400000 false false
        freshRequest freshResponse).length = MAX_CACHE_SIZE + 1 := by
  constructor
  · simp [bigCache, MAX_CACHE_SIZE]
  · rw [cacheManagerSet_normal, objSet_length_fresh bigCache_fresh]
    simp [bigCache, MAX_CACHE_SIZE]

/-- C2 amended: `set()` alone does not evict — on a successful storage
write a 1000-entry cache grows to 1001 (the counterexample).  Eviction
happens only on the storage-failure path: there, writing a fresh entry
into a full cache (distinct keys, all existing entries older than the
write) leaves at most the capacity bound — in fact capacity minus the
100-entry headroom — and the entry just written survives. -/
theorem cacheSet_eviction_bound (cache : Store) (r : TranslationRequest)
    (resp : TranslationResponse) (now ttl : Nat)
    (hlen : cache.length = MAX_CACHE_SIZE)
    (hnodup : (cache.map Prod.fst).Nodup)
    (hold : ∀ kv ∈ cache, kv.2.timestamp < now) :
    (cacheManagerSet cache now ttl false true r resp).length
        ≤ MAX_CACHE_SIZE ∧
    objGet (cacheManagerSet cache now ttl false true r resp)
        (generateCacheKey r)
      = some ⟨resp.translatedText, now, now + ttl⟩ := by
  set k := generateCacheKey r with hkdef
  set v : CacheEntry := ⟨resp.translatedText, now, now + ttl⟩ with hvdef
  have hred : cacheManagerSet cache now ttl false true r resp
      = cleanupOldEntries (objSet cache k v) := rfl
  rw [hred]
  by_cases hany : cache.any (fun kv => kv.1 = k) = true
  · have hlen1 : (objSet cache k v).length = cache.length := by
      unfold objSet
      rw [if_pos hany, List.length_map]
    have hclean : cleanupOldEntries (objSet cache k v) = objSet cache k v := by
      unfold cleanupOldEntries
      rw [if_neg (by rw [hlen1, hlen]; omega)]
    rw [hclean]
    refine ⟨?_, objGet_objSet _ _ _⟩
    rw [hlen1, hlen]
  · have hc1 : objSet cache k v = cache ++ [(k, v)] := by
      unfold objSet
      rw [if_neg hany]
    rw [hc1]
    have hlen1 : (cache ++ [(k, v)]).length = MAX_CACHE_SIZE + 1 := by
      simp [hlen]
    have hgt : (cache ++ [(k, v)]).length > MAX_CACHE_SIZE := by
      rw [hlen1]
      omega
    have hclean : cleanupOldEntries (cache ++ [(k, v)])
        = (cache ++ [(k, v)]).filter (fun kv =>
            ¬ ((((cache ++ [(k, v)]).mergeSort
                  (fun a b => a.2.timestamp ≤ b.2.timestamp)).take
                ((cache ++ [(k, v)]).length - MAX_CACHE_SIZE + 100)).map
              (fun d => d.1)).contains kv.1) := by
      simp only [cleanupOldEntries]
      rw [if_pos hgt]
    rw [hclean]
    set sorted := (cache ++ [(k, v)]).mergeSort
        (fun a b => a.2.timestamp ≤ b.2.timestamp) with hsorteddef
    set cnt := (cache ++ [(k, v)]).length - MAX_CACHE_SIZE + 100 with hcntdef
    have hcnt : cnt = 101 := by
      rw [hcntdef, hlen1]
      simp [MAX_CACHE_SIZE]
    have hperm : List.Perm sorted (cache ++ [(k, v)]) :=
      List.mergeSort_perm _ _
    have hsortedlen : sorted.length = MAX_CACHE_SIZE + 1 :=
      hperm.length_eq.trans hlen1
    have hknotin : k ∉ cache.map Prod.fst := by
      intro hmem
      rcases List.mem_map.1 hmem with ⟨kv, hkv, hexq⟩
      exact hany (List.any_eq_true.2 ⟨kv, hkv, by simpa using hexq⟩)
    have hnodup1 : ((cache ++ [(k, v)]).map Prod.fst).Nodup := by
      rw [List.map_append]
      refine List.nodup_append.2 ⟨hnodup, List.nodup_singleton _, ?_⟩
      intro a ha hb
      simp only [List.map_cons, List.map_nil, List.mem_singleton] at hb
      subst hb
      exact hknotin ha
    have hnodupsortedkeys : (sorted.map Prod.fst).Nodup :=
      ((hperm.map Prod.fst).nodup_iff).2 hnodup1
    have hnodupsorted : sorted.Nodup := List.Nodup.of_map _ hnodupsortedkeys
    have hpair : sorted.Pairwise
        (fun a b => a.2.timestamp ≤ b.2.timestamp) := by
      have h0 := @List.sorted_mergeSort (List Char × CacheEntry)
        (fun a b => decide (a.2.timestamp ≤ b.2.timestamp))
        (by intro a b c hab hbc; simp at *; omega)
        (by intro a b; simp; omega) (cache ++ [(k, v)])
      exact List.Pairwise.imp (by intro a b hh; simpa using hh) h0
    have hkvnotdel : (k, v) ∉ sorted.take cnt := by
      intro htake
      have hpair2 : (sorted.take cnt ++ sorted.drop cnt).Pairwise
          (fun a b => a.2.timestamp ≤ b.2.timestamp) := by
        rw [List.take_append_drop]
        exact hpair
      have hcross := (List.pairwise_append.1 hpair2).2.2
      have hnodup2 : (sorted.take cnt ++ sorted.drop cnt).Nodup := by
        rw [List.take_append_drop]
        exact hnodupsorted
      have hdisj := (List.nodup_append.1 hnodup2).2.2
      have hdroplen : 0 < (sorted.drop cnt).length := by
        rw [List.length_drop, hsortedlen, hcnt]
        simp [MAX_CACHE_SIZE]
      obtain ⟨y, hy⟩ := List.exists_mem_of_ne_nil _ (List.length_pos.1 hdroplen)
      have hycache : y ∈ cache := by
        have hyc1 : y ∈ cache ++ [(k, v)] :=
          hperm.subset (List.drop_subset _ _ hy)
        rcases List.mem_append.1 hyc1 with h1 | h1
        · exact h1
        · exact absurd hy (by
            rw [List.mem_singleton.1 h1]
            exact fun hcontra => hdisj htake hcontra)
      have hts := hcross _ htake _ hy
      have hyold := hold y hycache
      simp only at hts
      omega
    have hkD : ∀ d ∈ (sorted.take cnt).map (fun d => d.1), d ≠ k := by
      intro d hd hdk
      rcases List.mem_map.1 hd with ⟨kv2, hkv2, hexq⟩
      have hkv2c1 : kv2 ∈ cache ++ [(k, v)] :=
        hperm.subset (List.take_subset _ _ hkv2)
      rcases List.mem_append.1 hkv2c1 with h1 | h1
      · refine hknotin ?_
        rw [← hdk, ← hexq]
        exact List.mem_map_of_mem Prod.fst h1
      · exact hkvnotdel ((List.mem_singleton.1 h1) ▸ hkv2)
    have hDnodup : ((sorted.take cnt).map (fun d => d.1)).Nodup := by
      have hmt : (sorted.take cnt).map (fun d => d.1)
          = (sorted.map Prod.fst).take cnt := List.map_take _ _ _
      rw [hmt]
      exact hnodupsortedkeys.sublist (List.take_sublist _ _)
    have hDsub : ∀ d ∈ (sorted.take cnt).map (fun d => d.1),
        d ∈ (cache ++ [(k, v)]).map Prod.fst := by
      intro d hd
      rcases List.mem_map.1 hd with ⟨kv2, hkv2, hexq⟩
      exact hexq ▸ List.mem_map_of_mem Prod.fst
        (hperm.subset (List.take_subset _ _ hkv2))
    have hDlen : ((sorted.take cnt).map (fun d => d.1)).length = 101 := by
      rw [List.length_map, List.length_take, hsortedlen, hcnt]
      simp [MAX_CACHE_SIZE]
    constructor
    · rw [length_filter_not_contains _ _ hDnodup hDsub hnodup1, hDlen, hlen1]
      simp [MAX_CACHE_SIZE]
    · have huniq : ∀ kv ∈ cache ++ [(k, v)], kv.1 = k → kv.2 = v := by
        rw [← hc1]
        exact objSet_key_unique
      have hget : objGet (cache ++ [(k, v)]) k = some v := by
        rw [← hc1]
        exact objGet_objSet _ _ _
      have hp : ¬ ((sorted.take cnt).map (fun d => d.1)).contains k = true := by
        intro hcont
        have hmem : k ∈ (sorted.take cnt).map (fun d => d.1) := by
          simpa using hcont
        exact hkD k hmem rfl
      exact objGet_filter _ huniq hget (by simpa using hp)

/-- C2 witness: the eviction bound evaluated on a concrete full cache
of 1000 distinct-key entries older than the write. -/
theorem cacheSet_eviction_bound_witness :
    (cacheManagerSet bigCache 1000000 86400000 false true
        freshRequest freshResponse).length ≤ MAX_CACHE_SIZE ∧
    objGet (cacheManagerSet bigCache 1000000 86400000 false true
        freshRequest freshResponse) (generateCacheKey freshRequest)
      = some ⟨freshResponse.translatedText, 1000000, 1000000 + 86400000⟩ :=
  cacheSet_eviction_bound bigCache freshRequest freshResponse 1000000 86400000
    (by simp [bigCache, MAX_CACHE_SIZE])
    (by
      have hbk : bigCache.map Prod.fst
          = (List.range 1000).map (fun i => List.replicate i 'k') := by
        simp [bigCache, Function.comp]
      rw [hbk]
      refine (List.nodup_range 1000).map ?_
      intro a b hab
      have hlab := congrArg List.length hab
      simpa using hlab)
    (by
      intro kv hkv
      simp only [bigCache, List.mem_map, List.mem_range] at hkv
      rcases hkv with ⟨i, hi, rfl⟩
      simp only
      omega)

end TranslationPipeline
